import Mathlib

/-!
Shallow embedding of the cryptocurrency-dashboard data-cleaning and
aggregation core (`project_functions.py`, driven by `Cripto_main.py`).

Modelling conventions:
* A dataframe cell is either missing (`Cell.na`, pandas `NaN`/`NaT`), a
  number (`Cell.num`, modelled exactly as a rational — every decimal string
  the parsers accept denotes a rational), a string, or a datetime
  (`Cell.date`, an integer time code).
* Per-value parse results are `Option Rat`: `none` is the missing sentinel.
* A raising pandas call is modelled as `Except String` / `Option` at the
  call granularity of the source.
* `str.replace(pat, '')` with a one-character pattern removes every
  occurrence of that character, hence is `List.filter (· ≠ pat)`.
-/

/-- One dataframe cell. -/
inductive Cell where
  | na : Cell
  | num : Rat → Cell
  | str : String → Cell
  | date : Int → Cell
deriving DecidableEq

/-- A pandas dataframe: named columns over a list of rows. -/
structure DataFrame where
  cols : List String
  rows : List (List Cell)
deriving DecidableEq

/-- Cell at position `i` of a row (missing when out of range). -/
def rowGet (r : List Cell) (i : Nat) : Cell := r.getD i Cell.na

/-- Index of a named column (length of `cols` when absent; callers guard). -/
def colIdx (df : DataFrame) (c : String) : Nat := df.cols.findIdx (· = c)

/-- `cell == string` comparison as pandas does it: only a string cell with
the same contents compares equal; `NaN == s` is `False`. -/
def cellEqStr : Cell → String → Bool
  | Cell.str t, s => t = s
  | _, _ => false

/-- Is the cell the missing value? -/
def isNaCell : Cell → Bool
  | Cell.na => true
  | _ => false

/-- Numeric contents of a cell, if any. -/
def cellNum? : Cell → Option Rat
  | Cell.num q => some q
  | _ => none

/-! ### Numeric string parsing (the model of `pd.to_numeric` on one value) -/

/-- Decimal value of a digit string, most significant digit first. -/
def digitsToNat (ds : List Char) : Nat :=
  ds.foldl (fun a c => 10 * a + (c.toNat - 48)) 0

/-- Split a character list into its leading run of decimal digits and the
rest. -/
def takeDigits : List Char → List Char × List Char
  | [] => ([], [])
  | c :: cs =>
    if c.isDigit then
      let p := takeDigits cs
      (c :: p.1, p.2)
    else ([], c :: cs)

/-- Parse a non-empty all-digit list to an integer. -/
def parseIntDigits (cs : List Char) : Option Int :=
  if cs ≠ [] ∧ cs.all Char.isDigit then some (digitsToNat cs) else none

/-- Parse an optionally signed all-digit list to an integer. -/
def parseSignedInt (cs : List Char) : Option Int :=
  match cs with
  | [] => none
  | c :: r =>
    if c = '+' then parseIntDigits r
    else if c = '-' then (parseIntDigits r).map Int.neg
    else parseIntDigits cs

/-- Parse an optional exponent suffix (empty means exponent 0). -/
def parseExp (cs : List Char) : Option Int
  := match cs with
  | [] => some 0
  | c :: r => if c = 'e' ∨ c = 'E' then parseSignedInt r else none

/-- Exact power of ten for an integer exponent. -/
def ratPow10 (e : Int) : Rat :=
  if 0 ≤ e then (10 : Rat) ^ e.toNat else 1 / (10 : Rat) ^ (-e).toNat

/-- Mantissa-and-exponent part of float parsing, after the optional sign has
been consumed: digits, optional `.` and more digits, optional exponent. -/
def toNumericAfterSign (cs : List Char) : Option Rat :=
  let ip := (takeDigits cs).1
  let rest := (takeDigits cs).2
  match rest with
  | [] =>
    if ip = [] then none
    else (parseExp []).map (fun e => (digitsToNat ip : Rat) * ratPow10 e)
  | c :: r2 =>
    if c = '.' then
      let fp := (takeDigits r2).1
      let r3 := (takeDigits r2).2
      if ip = [] ∧ fp = [] then none
      else
        (parseExp r3).map
          (fun e => ((digitsToNat ip : Rat) + (digitsToNat fp : Rat) / 10 ^ fp.length) * ratPow10 e)
    else
      if ip = [] then none
      else (parseExp rest).map (fun e => (digitsToNat ip : Rat) * ratPow10 e)

/-- Model of `pd.to_numeric(value, errors='coerce')` on one string: an
optionally signed decimal literal with optional fraction and exponent;
anything else is the missing sentinel `none`. -/
def toNumericL (cs : List Char) : Option Rat :=
  match cs with
  | [] => none
  | c :: r =>
    if c = '+' then toNumericAfterSign r
    else if c = '-' then (toNumericAfterSign r).map Neg.neg
    else toNumericAfterSign cs

/-! ### The four field parsers (`project_functions.py` lines 10-61) -/

/-- `transform_string_to_num` on one value: delete every `,`, then coerce
to a number (line 24 of the source). -/
def transform_string_to_num_scalar (s : String) : Option Rat :=
  toNumericL (s.data.filter (· ≠ ','))

/-- `transform_string_to_num` on a whole column. -/
def transform_string_to_num (col : List String) : List (Option Rat) :=
  col.map transform_string_to_num_scalar

/-- Is a character one of the four scale-suffix letters `T B M K`? -/
def isSufChar (c : Char) : Bool :=
  c = 'T' || c = 'B' || c = 'M' || c = 'K'

/-- The factor a scale-suffix character denotes (`{'T': 1e12, 'B': 1e9,
'M': 1e6, 'K': 1e3}`, line 40 of the source). -/
def sufFactorC (c : Char) : Rat :=
  if c = 'T' then 10 ^ 12
  else if c = 'B' then 10 ^ 9
  else if c = 'M' then 10 ^ 6
  else if c = 'K' then 10 ^ 3
  else 1

/-- `transform_dollars_str_to_num` on one value (lines 38-44 of the
source): delete every `$`; read the last character as a scale suffix when
it is in `{T,B,M,K}` (otherwise factor 1 and keep the whole string); delete
commas; coerce to a number; multiply by the factor. -/
def transform_dollars_scalar_chars (cs : List Char) : Option Rat :=
  match (cs.filter (· ≠ '$')).getLast? with
  | some c =>
    if isSufChar c then
      (toNumericL ((cs.filter (· ≠ '$')).dropLast.filter (· ≠ ','))).map (· * sufFactorC c)
    else
      (toNumericL ((cs.filter (· ≠ '$')).filter (· ≠ ','))).map (· * 1)
  | none => none

/-- `transform_dollars_str_to_num` on one value, string interface. -/
def transform_dollars_scalar (s : String) : Option Rat :=
  transform_dollars_scalar_chars s.data

/-- `transform_dollars_str_to_num` on a whole column. -/
def transform_dollars_str_to_num (col : List String) : List (Option Rat) :=
  col.map transform_dollars_scalar

/-- `transform_percent_str_to_num` on one value (lines 56-61 of the
source): delete every `%`, delete every `+`, coerce to a number. -/
def transform_percent_chars (cs : List Char) : Option Rat :=
  toNumericL ((cs.filter (· ≠ '%')).filter (· ≠ '+'))

/-- `transform_percent_str_to_num` on one value, string interface. -/
def transform_percent_scalar (s : String) : Option Rat :=
  transform_percent_chars s.data

/-- `transform_percent_str_to_num` on a whole column. -/
def transform_percent_str_to_num (col : List String) : List (Option Rat) :=
  col.map transform_percent_scalar

/-- Model of the ISO-date core of the library datetime parser used by
`transform_string_to_datetime`: accepts `YYYY-MM-DD`, rejects everything
else (the library accepts further formats; every string this model accepts
the library also accepts, and `"abc"` is rejected by both).  The result is
a monotone integer time code. -/
def parseDatetime (s : String) : Option Int :=
  match s.data with
  | [y1, y2, y3, y4, h1, m1, m2, h2, d1, d2] =>
    if h1 = '-' ∧ h2 = '-' ∧
        (y1.isDigit && y2.isDigit && y3.isDigit && y4.isDigit &&
         m1.isDigit && m2.isDigit && d1.isDigit && d2.isDigit) then
      let y := digitsToNat [y1, y2, y3, y4]
      let m := digitsToNat [m1, m2]
      let d := digitsToNat [d1, d2]
      if 1 ≤ m ∧ m ≤ 12 ∧ 1 ≤ d ∧ d ≤ 31 then
        some (((y * 12 + m) * 31 + d : Nat) : Int)
      else none
    else none
  | _ => none

/-- `transform_string_to_datetime` (line 14 of the source):
`pd.to_datetime(sr.astype(str))` with the default `errors='raise'` — the
first unparsable entry aborts the whole column with an exception, modelled
as `Except.error`. -/
def transform_string_to_datetime (col : List String) : Except String (List Int) :=
  col.mapM fun s =>
    match parseDatetime s with
    | some t => Except.ok t
    | none => Except.error ("Unknown datetime string format: " ++ s)

/-! ### Row filter (`drop_na_line`, lines 64-70 of the source) -/

/-- One `df.dropna(subset=[c])` step: keep the rows whose cell in column
`c` is not missing; a missing column raises (`none`). -/
def dropna1 (df : DataFrame) (c : String) : Option DataFrame :=
  if c ∈ df.cols then
    some ⟨df.cols, df.rows.filter (fun r => !isNaCell (rowGet r (colIdx df c)))⟩
  else none

/-- `drop_na_line(df, *columns)`: fold `dropna` over the required columns,
exactly as the source's `for col in columns` loop. -/
def drop_na_line (df : DataFrame) (columns : List String) : Option DataFrame :=
  match columns with
  | [] => some df
  | c :: cs =>
    match dropna1 df c with
    | some d => drop_na_line d cs
    | none => none

/-! ### Top-N by metric (`get_top_crypto_list`, lines 183-207) -/

/-- Rank used to order cells of different kinds (pandas would raise on a
mixed-type sort; ranking makes the comparator total without affecting
homogeneous columns). -/
def cellRank : Cell → Nat
  | Cell.na => 0
  | Cell.num _ => 1
  | Cell.date _ => 2
  | Cell.str _ => 3

/-- Total comparator on cells: payload order on same-kind cells, kind rank
otherwise. -/
def cellLe (a b : Cell) : Bool :=
  match a, b with
  | Cell.num x, Cell.num y => decide (x ≤ y)
  | Cell.date x, Cell.date y => decide (x ≤ y)
  | Cell.str x, Cell.str y => decide (x ≤ y)
  | x, y => decide (cellRank x ≤ cellRank y)

/-- Insertion step of the executable sort model: a new row goes after
every already-placed row whose key is ≥ its key.  The source's
`sort_values(by, ascending=False)` uses the library's default quicksort,
which guarantees only a descending reordering — the relative order of
tied keys is unspecified and not stable — so this step merely picks one
admissible tie order to make the model executable; no theorem below
relies on which order it picks (see `IsDescSortOf` and the correction of
claim C3). -/
def insertRowDesc (i : Nat) (x : List Cell) : List (List Cell) → List (List Cell)
  | [] => [x]
  | y :: ys =>
    if cellLe (rowGet x i) (rowGet y i) then y :: insertRowDesc i x ys
    else x :: y :: ys

/-- Executable model of `sort_values(by, ascending=False)`: one
admissible descending reordering of the rows by the cell at index `i`.
The program's sort guarantees only `IsDescSortOf`; this definition is one
refinement of that contract, used where a concrete result is needed. -/
def sortRowsDesc (i : Nat) (l : List (List Cell)) : List (List Cell) :=
  l.foldl (fun acc x => insertRowDesc i x acc) []

/-- The guarantee the library documents for
`sort_values(by, ascending=False)` with its default quicksort: the result
is some reordering of the rows that is descending in the key at index
`i`.  Which reordering — in particular the relative order of rows with
tied keys — is unspecified; the default sort kind is not stable. -/
def IsDescSortOf (i : Nat) (l sorted : List (List Cell)) : Prop :=
  sorted.Perm l ∧
    sorted.Pairwise (fun a b => cellLe (rowGet b i) (rowGet a i) = true)

/-- `drop_duplicates(subset=["name"])`: keep the first row for each key
cell at index `i` (`seen` accumulates the keys already kept). -/
def dedupByIdx (i : Nat) : List (List Cell) → List Cell → List (List Cell)
  | [], _ => []
  | r :: rs, seen =>
    if rowGet r i ∈ seen then dedupByIdx i rs seen
    else r :: dedupByIdx i rs (rowGet r i :: seen)

/-- The tail of the top-N pipeline applied to an already-sorted row list:
deduplicate by the name key at index `ni` keeping the first occurrence,
take the first `n` rows, project the names, and drop the first name when
the exclude-top flag is set. -/
def topNamesFromSorted (ni n : Nat) (top1 : Bool) (sorted : List (List Cell)) : List Cell :=
  let names := (List.take n (dedupByIdx ni sorted [])).map (fun r => rowGet r ni)
  if top1 then names.drop 1 else names

/-- The row pipeline of `get_top_crypto_list` (line 199-203): drop rows
with a missing metric, sort descending by the metric, deduplicate by name
keeping the first occurrence, take the first `n` rows. -/
def topSelection (df : DataFrame) (n : Nat) (bycol : String) : List (List Cell) :=
  List.take n
    (dedupByIdx (colIdx df "name")
      (sortRowsDesc (colIdx df bycol)
        (df.rows.filter (fun r => !isNaCell (rowGet r (colIdx df bycol)))))
      [])

/-- The `name` cells of the selected rows (`.head(n)["name"].tolist()`). -/
def topNames (df : DataFrame) (n : Nat) (bycol : String) : List Cell :=
  (topSelection df n bycol).map (fun r => rowGet r (colIdx df "name"))

/-- `get_top_crypto_list(df, n, by, top1)`: raises `ValueError` when the
metric column is absent (line 192-193), raises `KeyError` when the frame
has no `name` column (as the pandas column selection would), otherwise the
top names — with the first one dropped (`top_names[1:]`) when `top1` is
set. -/
def get_top_crypto_list (df : DataFrame) (n : Nat) (bycol : String) (top1 : Bool) :
    Except String (List Cell) :=
  if bycol ∈ df.cols then
    if "name" ∈ df.cols then
      Except.ok (if top1 then (topNames df n bycol).drop 1 else topNames df n bycol)
    else Except.error "KeyError: name"
  else Except.error ("Column " ++ bycol ++ " not found in dataframe")

/-! ### Column statistics (pandas reductions with `skipna=True`) -/

/-- `Series.mean()`: mean of the non-missing values, missing when there are
none. -/
def rmean (vs : List Rat) : Option Rat :=
  if vs = [] then none else some (vs.sum / (vs.length : Rat))

/-- Stable ascending insertion sort on rationals (for the median). -/
def insertAsc (x : Rat) : List Rat → List Rat
  | [] => [x]
  | y :: ys => if x ≤ y then x :: y :: ys else y :: insertAsc x ys

/-- Ascending sort on rationals. -/
def sortAsc (l : List Rat) : List Rat := l.foldr insertAsc []

/-- `Series.median()`: middle element of the sorted non-missing values, or
the average of the two middle elements. -/
def rmedian (vs : List Rat) : Option Rat :=
  let s := sortAsc vs
  let k := s.length
  if k = 0 then none
  else if k % 2 = 1 then some (s.getD (k / 2) 0)
  else some ((s.getD (k / 2 - 1) 0 + s.getD (k / 2) 0) / 2)

/-- `Series.min()`. -/
def rmin : List Rat → Option Rat
  | [] => none
  | x :: xs => some (xs.foldl min x)

/-- `Series.max()`. -/
def rmax : List Rat → Option Rat
  | [] => none
  | x :: xs => some (xs.foldl max x)

/-- Numeric values of column `c` over the given rows (missing values are
skipped, as every pandas reduction above does). -/
def colVals (df : DataFrame) (rs : List (List Cell)) (c : String) : List Rat :=
  rs.filterMap (fun r => cellNum? (rowGet r (colIdx df c)))

/-! ### Per-entity summary (`get_crypto_main_info`, lines 228-275) -/

/-- The values `get_crypto_main_info` prints. -/
structure MainInfo where
  name : Cell
  symbol : Cell
  price_mean : Option Rat
  price_median : Option Rat
  price_min : Option Rat
  price_max : Option Rat
  chg24_mean : Option Rat
  chg24_min : Option Rat
  chg24_max : Option Rat
  chg7_mean : Option Rat
  chg7_min : Option Rat
  chg7_max : Option Rat
deriving DecidableEq

/-- Statistics of `get_crypto_main_info` over an already-filtered list of
rows whose head is `r0`. -/
def mainInfoOf (df : DataFrame) (r0 : List Cell) (sub : List (List Cell)) : MainInfo :=
  { name := rowGet r0 (colIdx df "name")
    symbol := rowGet r0 (colIdx df "symbol")
    price_mean := rmean (colVals df sub "price_usd_num")
    price_median := rmedian (colVals df sub "price_usd_num")
    price_min := rmin (colVals df sub "price_usd_num")
    price_max := rmax (colVals df sub "price_usd_num")
    chg24_mean := rmean (colVals df sub "chg_24h_num")
    chg24_min := rmin (colVals df sub "chg_24h_num")
    chg24_max := rmax (colVals df sub "chg_24h_num")
    chg7_mean := rmean (colVals df sub "chg_7d_num")
    chg7_min := rmin (colVals df sub "chg_7d_num")
    chg7_max := rmax (colVals df sub "chg_7d_num") }

/-- `get_crypto_main_info(df, crypto, ...)` (lines 228-275): filter the
rows to `df['name'] == crypto` — and to nothing else; the function has no
date-range parameter, the call site's `start_date, end_date` land in the
`price_decimals, change_decimals` slots — then either the "No data" outcome
(`none`) when the filtered frame is empty, or the statistics of the
filtered rows.  The decimals arguments only affect string formatting, not
which rows are aggregated, and are omitted here. -/
def get_crypto_main_info (df : DataFrame) (crypto : String) : Option MainInfo :=
  match df.rows.filter (fun r => cellEqStr (rowGet r (colIdx df "name")) crypto) with
  | [] => none
  | r0 :: rest => some (mainInfoOf df r0 (r0 :: rest))

/-- Is the cell a datetime inside the inclusive range `[s, e]`? -/
def tsInRange (c : Cell) (s e : Int) : Bool :=
  match c with
  | Cell.date d => s ≤ d && d ≤ e
  | _ => false

/-- Reference definition following the spec's words (spec §4.3,
"Per-entity summary"): filter the records for the entity whose timestamp
lies within the inclusive range `[startT, endT]`, report the explicit "no
data" outcome when none match, otherwise the statistics of exactly the
filtered records. -/
def get_crypto_main_info_specref (df : DataFrame) (crypto : String) (startT endT : Int) :
    Option MainInfo :=
  match df.rows.filter (fun r =>
      cellEqStr (rowGet r (colIdx df "name")) crypto &&
      tsInRange (rowGet r (colIdx df "timestamp")) startT endT) with
  | [] => none
  | r0 :: rest => some (mainInfoOf df r0 (r0 :: rest))

/-! ### Fixed-decimal formatting (`fmt_num`, lines 210-217) -/

/-- Round a rational to the nearest integer, ties to even (the rounding of
a Python `format(x, '.2f')`), computed on the numerator and denominator:
`f` is the floor and `r2 / d` is twice the fractional part. -/
def rhe (q : Rat) : Int :=
  let n := q.num
  let d := (q.den : Int)
  let f := Int.fdiv n d
  let r2 := 2 * (n - f * d)
  if r2 < d then f
  else if d < r2 then f + 1
  else if f % 2 = 0 then f else f + 1

/-- Insert `_` after every third character of a least-significant-first
digit list (the `_` thousands grouping of a Python `format(x, '_.2f')`). -/
def g3 : List Char → List Char
  | a :: b :: c :: d :: rest => a :: b :: c :: '_' :: g3 (d :: rest)
  | l => l

/-- `format(q, '_.{dec}f')`: fixed `dec` decimals, `_`-grouped integer
part. -/
def formatFixed (q : Rat) (dec : Nat) : String :=
  let n := rhe (q * (10 : Rat) ^ dec)
  let ds := Nat.toDigits 10 n.natAbs
  let padded := if dec + 1 ≤ ds.length then ds else List.replicate (dec + 1 - ds.length) '0' ++ ds
  let ip := padded.take (padded.length - dec)
  let fp := padded.drop (padded.length - dec)
  (if n < 0 then "-" else "") ++ String.mk ((g3 ip.reverse).reverse) ++
    (if dec = 0 then "" else "." ++ String.mk fp)

/-- `fmt_num(x, dec)` (lines 210-217): `"-"` for a missing value, otherwise
`format(x, '_.{dec}f') + "$"`. -/
def fmt_num (x : Option Rat) (dec : Nat) : String :=
  match x with
  | none => "-"
  | some q => formatFixed q dec ++ "$"

/-! ### Shapes of valid inputs, for the universal parser claims -/

/-- Factor of an optional scale suffix (absent suffix means factor 1). -/
def sufFactor : Option Char → Rat
  | none => 1
  | some c => sufFactorC c

/-- A percent string of the spec's shape: optional leading `+`, optional
sign, digits, optional `.digits`, trailing `%`. -/
def percentChars (plus neg : Bool) (ds fs : List Char) : List Char :=
  (if plus then ['+'] else []) ++ (if neg then ['-'] else []) ++ ds ++
    (if fs = [] then [] else '.' :: fs) ++ ['%']

/-- A currency string of the spec's shape
`<symbol><digits>[.<digits>]<suffix>`: `$`, digits, optional `.digits`,
optional suffix letter. -/
def dollarChars (ds fs : List Char) (suf : Option Char) : List Char :=
  '$' :: (ds ++ (if fs = [] then [] else '.' :: fs) ++
    (match suf with
     | some c => [c]
     | none => []))

/-! ### Concrete example frames used in the claim evaluations -/

/-- Two BTC records, at times 0 and 100, with prices 1 and 3. -/
def dfBtcTwo : DataFrame :=
  ⟨["name", "symbol", "timestamp", "price_usd_num", "chg_24h_num", "chg_7d_num"],
   [[Cell.str "BTC", Cell.str "B", Cell.date 0, Cell.num 1, Cell.num 0, Cell.num 0],
    [Cell.str "BTC", Cell.str "B", Cell.date 100, Cell.num 3, Cell.num 0, Cell.num 0]]⟩

/-- A single BTC record at time 5. -/
def dfBtcOnce : DataFrame :=
  ⟨["name", "symbol", "timestamp", "price_usd_num", "chg_24h_num", "chg_7d_num"],
   [[Cell.str "BTC", Cell.str "B", Cell.date 5, Cell.num 7, Cell.num 1, Cell.num 2]]⟩

/-- A small frame for the top-N queries: entity A twice, one missing
metric. -/
def dfTop : DataFrame :=
  ⟨["name", "m"],
   [[Cell.str "A", Cell.num 5], [Cell.str "B", Cell.num 3],
    [Cell.str "A", Cell.num 2], [Cell.str "C", Cell.na]]⟩

/-! ### Helper lemmas: character classes and digit runs -/

theorem isDigit_ne (c x : Char) (h : c.isDigit = true) (hx : x.isDigit = false) : c ≠ x := by
  intro he
  rw [he, hx] at h
  cases h

theorem takeDigits_all (ds rest : List Char) (hd : ∀ c ∈ ds, c.isDigit = true)
    (hr : ∀ c cs, rest = c :: cs → c.isDigit = false) :
    takeDigits (ds ++ rest) = (ds, rest) := by
  induction ds with
  | nil =>
    simp only [List.nil_append]
    match rest, hr with
    | [], _ => rfl
    | c :: cs, hr => simp [takeDigits, hr c cs rfl]
  | cons d ds ih =>
    have hd0 : d.isDigit = true := hd d (List.mem_cons_self _ _)
    simp [takeDigits, hd0, ih (fun c hc => hd c (List.mem_cons_of_mem _ hc))]

theorem filter_digits_eq (l : List Char) (x : Char) (hd : ∀ c ∈ l, c.isDigit = true)
    (hx : x.isDigit = false) : l.filter (· ≠ x) = l := by
  rw [List.filter_eq_self]
  intro c hc
  simpa using isDigit_ne c x (hd c hc) hx

theorem toNumericAfterSign_mk (ds fs : List Char) (hds : ds ≠ [])
    (hd : ∀ c ∈ ds, c.isDigit = true) (hf : ∀ c ∈ fs, c.isDigit = true) :
    toNumericAfterSign (ds ++ (if fs = [] then [] else '.' :: fs)) =
      some ((digitsToNat ds : Rat) + (digitsToNat fs : Rat) / 10 ^ fs.length) := by
  by_cases hfs : fs = []
  · subst hfs
    have ht : takeDigits ds = (ds, []) := by
      have h0 := takeDigits_all ds [] hd (by intro c cs h; cases h)
      simpa using h0
    simp [toNumericAfterSign, ht, hds, parseExp, ratPow10, digitsToNat]
  · have hdot : ('.').isDigit = false := by decide
    have ht : takeDigits (ds ++ '.' :: fs) = (ds, '.' :: fs) :=
      takeDigits_all ds ('.' :: fs) hd (by intro c cs h; cases h; exact hdot)
    have htf : takeDigits (fs ++ ([] : List Char)) = (fs, []) :=
      takeDigits_all fs [] hf (by intro c cs h; cases h)
    rw [List.append_nil] at htf
    simp [toNumericAfterSign, if_neg hfs, ht, htf, hds, parseExp, ratPow10]

theorem toNumericL_mk (neg : Bool) (ds fs : List Char) (hds : ds ≠ [])
    (hd : ∀ c ∈ ds, c.isDigit = true) (hf : ∀ c ∈ fs, c.isDigit = true) :
    toNumericL ((if neg then ['-'] else []) ++ ds ++ (if fs = [] then [] else '.' :: fs)) =
      some ((if neg then (-1 : Rat) else 1) *
        ((digitsToNat ds : Rat) + (digitsToNat fs : Rat) / 10 ^ fs.length)) := by
  obtain ⟨d, ds', rfl⟩ : ∃ d ds', ds = d :: ds' := by
    cases ds with
    | nil => exact absurd rfl hds
    | cons d ds' => exact ⟨d, ds', rfl⟩
  have hd0 : d.isDigit = true := hd d (List.mem_cons_self _ _)
  have hplus : d ≠ '+' := isDigit_ne d '+' hd0 (by decide)
  have hminus : d ≠ '-' := isDigit_ne d '-' hd0 (by decide)
  have hAS := toNumericAfterSign_mk (d :: ds') fs hds hd hf
  rw [List.cons_append] at hAS
  cases neg with
  | false =>
    simp only [Bool.false_eq_true, if_false, List.nil_append, List.cons_append]
    simp [toNumericL, hplus, hminus, hAS]
  | true =>
    simp only [if_true, List.cons_append, List.nil_append, List.singleton_append]
    simp [toNumericL, hAS]
    try ring


theorem filter_ne_eq_self (l : List Char) (x : Char) (h : ∀ c ∈ l, c ≠ x) :
    l.filter (· ≠ x) = l := by
  rw [List.filter_eq_self]
  intro a ha
  simpa using h a ha

theorem percent_filters (plus neg : Bool) (ds fs : List Char)
    (hd : ∀ c ∈ ds, c.isDigit = true) (hf : ∀ c ∈ fs, c.isDigit = true) :
    ((percentChars plus neg ds fs).filter (· ≠ '%')).filter (· ≠ '+') =
      (if neg then ['-'] else []) ++ ds ++ (if fs = [] then [] else '.' :: fs) := by
  have hBody : ∀ c ∈ (((if plus then ['+'] else []) ++ (if neg then ['-'] else [])) ++ ds) ++
      (if fs = [] then [] else '.' :: fs), c ≠ '%' := by
    intro c hc
    simp only [List.mem_append] at hc
    rcases hc with ((hA | hB) | hds) | hF
    · cases plus
      · simp at hA
      · simp at hA
        subst hA
        decide
    · cases neg
      · simp at hB
      · simp at hB
        subst hB
        decide
    · exact isDigit_ne c '%' (hd c hds) (by decide)
    · by_cases hfs : fs = []
      · rw [if_pos hfs] at hF
        simp at hF
      · rw [if_neg hfs] at hF
        rcases List.mem_cons.mp hF with rfl | hmem
        · decide
        · exact isDigit_ne c '%' (hf c hmem) (by decide)
  have hF' : (if fs = [] then ([] : List Char) else '.' :: fs).filter (· ≠ '+') =
      (if fs = [] then [] else '.' :: fs) := by
    by_cases hfs : fs = []
    · rw [if_pos hfs]
      rfl
    · rw [if_neg hfs]
      refine filter_ne_eq_self _ '+' ?_
      intro c hc
      rcases List.mem_cons.mp hc with rfl | hmem
      · decide
      · exact isDigit_ne c '+' (hf c hmem) (by decide)
  unfold percentChars
  rw [List.filter_append, filter_ne_eq_self _ '%' hBody]
  have h5 : (['%'] : List Char).filter (· ≠ '%') = [] := rfl
  rw [h5, List.append_nil]
  rw [List.filter_append, List.filter_append, List.filter_append, hF']
  rw [filter_ne_eq_self ds '+' (fun c hc => isDigit_ne c '+' (hd c hc) (by decide))]
  have hA' : (if plus then ['+'] else ([] : List Char)).filter (· ≠ '+') = [] := by
    cases plus <;> rfl
  have hB' : (if neg then ['-'] else ([] : List Char)).filter (· ≠ '+') =
      (if neg then ['-'] else []) := by
    cases neg <;> rfl
  rw [hA', hB']
  simp

/-- Claim C5: for every percent string of the shape
`[+][-]digits[.digits]%`, the Percent Parser strips the trailing `%` and
the leading `+` and parses the remainder with its sign preserved; in
particular `"17%"` gives `17`, `"-1.66%"` gives `-1.66` and `"+2.5%"`
gives `2.5`. -/
theorem claim_C5 :
    (∀ (plus neg : Bool) (ds fs : List Char), ds ≠ [] →
        (∀ c ∈ ds, c.isDigit = true) → (∀ c ∈ fs, c.isDigit = true) →
        transform_percent_chars (percentChars plus neg ds fs) =
          some ((if neg then (-1 : Rat) else 1) *
            ((digitsToNat ds : Rat) + (digitsToNat fs : Rat) / 10 ^ fs.length))) ∧
    transform_percent_scalar "17%" = some 17 ∧
    transform_percent_scalar "-1.66%" = some (-166 / 100) ∧
    transform_percent_scalar "+2.5%" = some (25 / 10) := by
  refine ⟨?_, ?_, ?_, ?_⟩
  · intro plus neg ds fs hds hd hf
    unfold transform_percent_chars
    rw [percent_filters plus neg ds fs hd hf]
    exact toNumericL_mk neg ds fs hds hd hf
  · simp +decide [transform_percent_scalar, transform_percent_chars, toNumericL,
      toNumericAfterSign, takeDigits, parseExp, ratPow10, digitsToNat]
  · simp +decide [transform_percent_scalar, transform_percent_chars, toNumericL,
      toNumericAfterSign, takeDigits, parseExp, ratPow10, digitsToNat]
    norm_num
  · simp +decide [transform_percent_scalar, transform_percent_chars, toNumericL,
      toNumericAfterSign, takeDigits, parseExp, ratPow10, digitsToNat]
    norm_num

/-- Witness for claim C5: instantiates the universal part at the valid
percent string `"+2.5%"` (digits `2`, fraction `5`, leading plus). -/
theorem claim_C5_witness :
    transform_percent_chars (percentChars true false ['2'] ['5']) =
      some ((if false then (-1 : Rat) else 1) *
        ((digitsToNat ['2'] : Rat) + (digitsToNat ['5'] : Rat) / 10 ^ (['5'] : List Char).length)) :=
  claim_C5.1 true false ['2'] ['5'] (by decide) (by decide) (by decide)

/-- Claim C10: the Percent Parser deletes every `%` and `+` anywhere in
the string, not only a trailing `%` and a leading `+`; hence inputs that
are not valid percent strings can still parse to a number instead of the
missing sentinel: `"1+2%"` gives `12` and `"%5%"` gives `5`. -/
theorem claim_C10 :
    (∀ s : String, transform_percent_scalar s =
        toNumericL ((s.data.filter (· ≠ '%')).filter (· ≠ '+'))) ∧
    transform_percent_scalar "1+2%" = some 12 ∧
    transform_percent_scalar "%5%" = some 5 := by
  refine ⟨fun s => rfl, ?_, ?_⟩ <;>
    simp +decide [transform_percent_scalar, transform_percent_chars, toNumericL,
      toNumericAfterSign, takeDigits, parseExp, ratPow10, digitsToNat]

theorem isSufChar_digit (c : Char) (h : c.isDigit = true) : isSufChar c = false := by
  have hT : c ≠ 'T' := isDigit_ne c 'T' h (by decide)
  have hB : c ≠ 'B' := isDigit_ne c 'B' h (by decide)
  have hM : c ≠ 'M' := isDigit_ne c 'M' h (by decide)
  have hK : c ≠ 'K' := isDigit_ne c 'K' h (by decide)
  simp [isSufChar, hT, hB, hM, hK]

theorem body_last_digit (ds fs : List Char) (hds : ds ≠ [])
    (hd : ∀ c ∈ ds, c.isDigit = true) (hf : ∀ c ∈ fs, c.isDigit = true) :
    ∃ a, (ds ++ (if fs = [] then [] else '.' :: fs)).getLast? = some a ∧ a.isDigit = true := by
  by_cases hfs : fs = []
  · rw [if_pos hfs, List.append_nil]
    rcases List.eq_nil_or_concat ds with rfl | ⟨L, b, rfl⟩
    · exact absurd rfl hds
    · rw [List.concat_eq_append]
      exact ⟨b, List.getLast?_concat L,
        hd b (by rw [List.concat_eq_append]; exact List.mem_append_right L (List.mem_singleton_self b))⟩
  · rw [if_neg hfs]
    rcases List.eq_nil_or_concat fs with rfl | ⟨L, b, rfl⟩
    · exact absurd rfl hfs
    · rw [List.concat_eq_append]
      have hshape : ds ++ '.' :: (L ++ [b]) = (ds ++ '.' :: L) ++ [b] := by
        simp [List.cons_append, List.append_assoc]
      rw [hshape]
      exact ⟨b, List.getLast?_concat _,
        hf b (by rw [List.concat_eq_append]; exact List.mem_append_right L (List.mem_singleton_self b))⟩

theorem body_mem_kind (ds fs : List Char)
    (hd : ∀ c ∈ ds, c.isDigit = true) (hf : ∀ c ∈ fs, c.isDigit = true) :
    ∀ c ∈ ds ++ (if fs = [] then [] else '.' :: fs), c.isDigit = true ∨ c = '.' := by
  intro c hc
  rcases List.mem_append.mp hc with h1 | h2
  · exact Or.inl (hd c h1)
  · by_cases hfs : fs = []
    · rw [if_pos hfs] at h2
      simp at h2
    · rw [if_neg hfs] at h2
      rcases List.mem_cons.mp h2 with rfl | hm
      · exact Or.inr rfl
      · exact Or.inl (hf c hm)

theorem toNumericL_mk_pos (ds fs : List Char) (hds : ds ≠ [])
    (hd : ∀ c ∈ ds, c.isDigit = true) (hf : ∀ c ∈ fs, c.isDigit = true) :
    toNumericL (ds ++ (if fs = [] then [] else '.' :: fs)) =
      some ((digitsToNat ds : Rat) + (digitsToNat fs : Rat) / 10 ^ fs.length) := by
  have h := toNumericL_mk false ds fs hds hd hf
  simpa using h

theorem dollar_filter (ds fs : List Char) (suf : Option Char)
    (hd : ∀ c ∈ ds, c.isDigit = true) (hf : ∀ c ∈ fs, c.isDigit = true)
    (hsuf : suf = none ∨ suf = some 'K' ∨ suf = some 'M' ∨ suf = some 'B' ∨ suf = some 'T') :
    (dollarChars ds fs suf).filter (· ≠ '$') =
      ds ++ (if fs = [] then [] else '.' :: fs) ++
        (match suf with
         | some c => [c]
         | none => []) := by
  rcases hsuf with rfl | rfl | rfl | rfl | rfl <;>
    (unfold dollarChars
     rw [List.filter_cons, (by decide : (decide ('$' ≠ '$')) = false)]
     simp only [Bool.false_eq_true, if_false]
     refine filter_ne_eq_self _ '$' ?_
     intro c hc
     rcases List.mem_append.mp hc with h1 | h2
     · rcases body_mem_kind ds fs hd hf c h1 with hdig | rfl
       · exact isDigit_ne c '$' hdig (by decide)
       · decide
     · simp at h2
       all_goals subst h2
       all_goals decide)

theorem body_filter_comma (ds fs : List Char)
    (hd : ∀ c ∈ ds, c.isDigit = true) (hf : ∀ c ∈ fs, c.isDigit = true) :
    (ds ++ (if fs = [] then [] else '.' :: fs)).filter (· ≠ ',') =
      ds ++ (if fs = [] then [] else '.' :: fs) := by
  refine filter_ne_eq_self _ ',' ?_
  intro c hc
  rcases body_mem_kind ds fs hd hf c hc with hdig | rfl
  · exact isDigit_ne c ',' hdig (by decide)
  · decide

theorem dollars_suffix_eval (ds fs : List Char) (c : Char) (hds : ds ≠ [])
    (hd : ∀ x ∈ ds, x.isDigit = true) (hf : ∀ x ∈ fs, x.isDigit = true)
    (hc : isSufChar c = true)
    (hfil : (dollarChars ds fs (some c)).filter (· ≠ '$') =
      ds ++ (if fs = [] then [] else '.' :: fs) ++ [c]) :
    transform_dollars_scalar_chars (dollarChars ds fs (some c)) =
      some (((digitsToNat ds : Rat) + (digitsToNat fs : Rat) / 10 ^ fs.length) * sufFactorC c) := by
  unfold transform_dollars_scalar_chars
  rw [hfil]
  simp only [List.getLast?_concat, List.dropLast_concat, hc, if_true]
  rw [body_filter_comma ds fs hd hf, toNumericL_mk_pos ds fs hds hd hf]
  rfl

theorem dollars_nosuffix_eval (ds fs : List Char) (hds : ds ≠ [])
    (hd : ∀ x ∈ ds, x.isDigit = true) (hf : ∀ x ∈ fs, x.isDigit = true)
    (hfil : (dollarChars ds fs none).filter (· ≠ '$') =
      ds ++ (if fs = [] then [] else '.' :: fs)) :
    transform_dollars_scalar_chars (dollarChars ds fs none) =
      some (((digitsToNat ds : Rat) + (digitsToNat fs : Rat) / 10 ^ fs.length) * 1) := by
  unfold transform_dollars_scalar_chars
  rw [hfil]
  obtain ⟨a, ha, hadig⟩ := body_last_digit ds fs hds hd hf
  simp only [ha, isSufChar_digit a hadig, Bool.false_eq_true, if_false]
  rw [body_filter_comma ds fs hd hf, toNumericL_mk_pos ds fs hds hd hf]
  rfl

/-- Claim C4: for every valid currency string
`$<digits>[.<digits>]<suffix>` with suffix in `{K, M, B, T}` (matched
case-sensitively; an absent suffix means factor 1), the Scaled Currency
Parser returns the numeric value of the digit part times the suffix's
power of ten; in particular `"$171.53B"` gives `171530000000`, `"$1.64K"`
gives `1640`, and the lowercase `"$1.64k"` is not recognised and gives the
missing sentinel. -/
theorem claim_C4 :
    (∀ (ds fs : List Char) (suf : Option Char), ds ≠ [] →
        (∀ c ∈ ds, c.isDigit = true) → (∀ c ∈ fs, c.isDigit = true) →
        (suf = none ∨ suf = some 'K' ∨ suf = some 'M' ∨ suf = some 'B' ∨ suf = some 'T') →
        transform_dollars_scalar_chars (dollarChars ds fs suf) =
          some (((digitsToNat ds : Rat) + (digitsToNat fs : Rat) / 10 ^ fs.length) *
            sufFactor suf)) ∧
    transform_dollars_scalar "$171.53B" = some 171530000000 ∧
    transform_dollars_scalar "$1.64K" = some 1640 ∧
    transform_dollars_scalar "$1.64k" = none := by
  refine ⟨?_, ?_, ?_, ?_⟩
  · intro ds fs suf hds hd hf hsuf
    have hfil := dollar_filter ds fs suf hd hf hsuf
    rcases hsuf with rfl | rfl | rfl | rfl | rfl
    · have hfil' : (dollarChars ds fs none).filter (· ≠ '$') =
          ds ++ (if fs = [] then [] else '.' :: fs) := by
        rw [hfil, List.append_nil]
      exact dollars_nosuffix_eval ds fs hds hd hf hfil'
    · exact dollars_suffix_eval ds fs 'K' hds hd hf (by decide) hfil
    · exact dollars_suffix_eval ds fs 'M' hds hd hf (by decide) hfil
    · exact dollars_suffix_eval ds fs 'B' hds hd hf (by decide) hfil
    · exact dollars_suffix_eval ds fs 'T' hds hd hf (by decide) hfil
  · simp +decide [transform_dollars_scalar, transform_dollars_scalar_chars, isSufChar,
      sufFactorC, toNumericL, toNumericAfterSign, takeDigits, parseExp, ratPow10, digitsToNat]
    norm_num
  · simp +decide [transform_dollars_scalar, transform_dollars_scalar_chars, isSufChar,
      sufFactorC, toNumericL, toNumericAfterSign, takeDigits, parseExp, ratPow10, digitsToNat]
    norm_num
  · simp +decide [transform_dollars_scalar, transform_dollars_scalar_chars, isSufChar,
      sufFactorC, toNumericL, toNumericAfterSign, takeDigits, parseExp, ratPow10, digitsToNat]

/-- Witness for claim C4: instantiates the universal part at the valid
currency string `"$1.64K"` (digits `1`, fraction `64`, suffix `K`). -/
theorem claim_C4_witness :
    transform_dollars_scalar_chars (dollarChars ['1'] ['6', '4'] (some 'K')) =
      some (((digitsToNat ['1'] : Rat) +
        (digitsToNat ['6', '4'] : Rat) / 10 ^ (['6', '4'] : List Char).length) *
          sufFactor (some 'K')) :=
  claim_C4.1 ['1'] ['6', '4'] (some 'K') (by decide) (by decide) (by decide)
    (Or.inr (Or.inl rfl))

/-- Counterexample for claim C2: the Timestamp Parser is not total — an
unparsable entry such as `"abc"` raises (the library call uses the
default raise-on-error mode), instead of becoming the missing sentinel. -/
theorem claim_C2_counterexample :
    transform_string_to_datetime ["abc"] =
      Except.error "Unknown datetime string format: abc" := by
  rfl

/-- Claim C2 as amended: the three numeric Field Parsers (Plain Number,
Scaled Currency, Percent) are total over their input column — each row is
mapped independently and an input whose symbol-stripped remainder is not
numeric becomes the missing sentinel, never an exception and never zero —
but the Timestamp Parser raises an exception on an unparsable entry
instead of producing a missing value (and, per claim C10, the Percent
Parser maps some non-pattern strings to numbers). -/
theorem claim_C2_amended (col : List String) :
    (transform_string_to_num col).length = col.length ∧
    (transform_dollars_str_to_num col).length = col.length ∧
    (transform_percent_str_to_num col).length = col.length ∧
    transform_string_to_num_scalar "abc" = none ∧
    transform_string_to_num_scalar "" = none ∧
    transform_dollars_scalar "abc" = none ∧
    transform_dollars_scalar "$--B" = none ∧
    transform_percent_scalar "abc" = none ∧
    transform_percent_scalar "" = none ∧
    (transform_string_to_datetime ["2024-01-05"]).isOk = true ∧
    (transform_string_to_datetime ["abc"]).isOk = false := by
  refine ⟨?_, ?_, ?_, rfl, rfl, rfl, rfl, rfl, rfl, rfl, rfl⟩ <;>
    simp [transform_string_to_num, transform_dollars_str_to_num, transform_percent_str_to_num]

/-- Counterexample for claim C9: parsing `"1,234.56"` and formatting the
result back with the repository's `fmt_num` does not reproduce
`"1,234.56"` — `fmt_num` uses `_` as the thousands separator and appends
`$`. -/
theorem claim_C9_counterexample :
    fmt_num (transform_string_to_num_scalar "1,234.56") 2 ≠ "1,234.56" := by
  have h1 : transform_string_to_num_scalar "1,234.56" = some (123456 / 100) := by
    simp +decide [transform_string_to_num_scalar, toNumericL, toNumericAfterSign,
      takeDigits, parseExp, ratPow10, digitsToNat]
    norm_num
  have h2 : ((123456 / 100 : Rat) * (10 : Rat) ^ 2) = ((123456 : Int) : Rat) := by norm_num
  have h3 : rhe ((123456 : Int) : Rat) = 123456 := by
    unfold rhe
    norm_num
  rw [h1]
  simp only [fmt_num, formatFixed, h2, h3]
  decide

/-- Claim C9 as amended: the Plain Number Parser maps `"1,234.56"` to
exactly `1234.56`, and formatting that value back with the repository's
`fmt_num` at two decimals yields `"1_234.56$"` (underscore grouping and a
trailing dollar sign), not the original string. -/
theorem claim_C9_amended :
    transform_string_to_num_scalar "1,234.56" = some (123456 / 100 : Rat) ∧
    fmt_num (some (123456 / 100 : Rat)) 2 = "1_234.56$" := by
  constructor
  · simp +decide [transform_string_to_num_scalar, toNumericL, toNumericAfterSign,
      takeDigits, parseExp, ratPow10, digitsToNat]
    norm_num
  · have h2 : ((123456 / 100 : Rat) * (10 : Rat) ^ 2) = ((123456 : Int) : Rat) := by norm_num
    have h3 : rhe ((123456 : Int) : Rat) = 123456 := by
      unfold rhe
      norm_num
    simp only [fmt_num, formatFixed, h2, h3]
    decide

/-- Claim C1 (code bug): `get_crypto_main_info` has no date-range
parameter and filters only on the entity name — the call site passes
`start_date, end_date` into the decimals slots — so on a frame with BTC
records at times 0 and 100 (prices 1 and 3) the summary requested for the
range `[0, 0]` averages both records (mean 2), while the spec's
range-filtered summary uses only the record at time 0 (mean 1). -/
theorem claim_C1_code_eval :
    (get_crypto_main_info dfBtcTwo "BTC").map (fun i => i.price_mean) = some (some 2) ∧
    (get_crypto_main_info_specref dfBtcTwo "BTC" 0 0).map (fun i => i.price_mean) =
      some (some 1) := by
  constructor
  · simp +decide [get_crypto_main_info, dfBtcTwo, mainInfoOf, colVals, colIdx, rowGet,
      List.findIdx_cons, List.findIdx_nil,
      cellEqStr, cellNum?, rmean, rmedian, rmin, rmax, sortAsc, insertAsc, isNaCell]
    try norm_num
  · simp +decide [get_crypto_main_info_specref, dfBtcTwo, mainInfoOf, colVals, colIdx, rowGet,
      List.findIdx_cons, List.findIdx_nil,
      cellEqStr, cellNum?, tsInRange, rmean, rmedian, rmin, rmax, sortAsc, insertAsc, isNaCell]
    try norm_num

/-- Claim C6 (code bug): the "no data" outcome is produced only when the
name filter is empty; on a frame whose single BTC record lies at time 5,
outside the requested range `[10, 20]`, the code still returns full
statistics, while the spec's range-aware summary reports "no data". -/
theorem claim_C6_code_eval :
    (get_crypto_main_info dfBtcOnce "BTC").isSome = true ∧
    get_crypto_main_info_specref dfBtcOnce "BTC" 10 20 = none := by
  exact ⟨rfl, rfl⟩

/-- Claim C7: requesting the top-N query on a metric column that is not a
column of the frame fails with the explicit `ValueError` of line 193 of
the source, and never returns a name list. -/
theorem claim_C7 (df : DataFrame) (n : Nat) (bycol : String) (top1 : Bool)
    (h : bycol ∉ df.cols) :
    get_top_crypto_list df n bycol top1 =
      Except.error ("Column " ++ bycol ++ " not found in dataframe") := by
  unfold get_top_crypto_list
  rw [if_neg h]

/-- Witness for claim C7: the column `"zz"` is absent from the example
frame. -/
theorem claim_C7_witness :
    get_top_crypto_list dfTop 3 "zz" true =
      Except.error ("Column " ++ "zz" ++ " not found in dataframe") :=
  claim_C7 dfTop 3 "zz" true (by decide)

theorem dropna1_spec (df e : DataFrame) (c : String) (h : dropna1 df c = some e) :
    c ∈ df.cols ∧ e.cols = df.cols ∧
      e.rows = df.rows.filter (fun r => !isNaCell (rowGet r (colIdx df c))) := by
  unfold dropna1 at h
  by_cases hc : c ∈ df.cols
  · rw [if_pos hc] at h
    injection h with h'
    subst h'
    exact ⟨hc, rfl, rfl⟩
  · rw [if_neg hc] at h
    cases h

theorem drop_na_line_spec : ∀ (columns : List String) (df e : DataFrame),
    drop_na_line df columns = some e →
    e.cols = df.cols ∧ (∀ r ∈ e.rows, r ∈ df.rows) ∧
      ∀ c ∈ columns, c ∈ df.cols ∧
        ∀ r ∈ e.rows, (!isNaCell (rowGet r (colIdx df c))) = true := by
  intro columns
  induction columns with
  | nil =>
    intro df e h
    unfold drop_na_line at h
    injection h with h'
    subst h'
    exact ⟨rfl, fun r hr => hr, by simp⟩
  | cons c cs ih =>
    intro df e h
    unfold drop_na_line at h
    cases hd1 : dropna1 df c with
    | none =>
      rw [hd1] at h
      cases h
    | some d =>
      rw [hd1] at h
      obtain ⟨hc, hdcols, hdrows⟩ := dropna1_spec df d c hd1
      obtain ⟨hec, hsub, hall⟩ := ih d e h
      refine ⟨hec.trans hdcols, ?_, ?_⟩
      · intro r hr
        have hrd : r ∈ d.rows := hsub r hr
        rw [hdrows] at hrd
        exact List.mem_of_mem_filter hrd
      · intro c' hc'
        rcases List.mem_cons.mp hc' with rfl | hmem
        · refine ⟨hc, ?_⟩
          intro r hr
          have hrd : r ∈ d.rows := hsub r hr
          rw [hdrows] at hrd
          exact (List.mem_filter.mp hrd).2
        · obtain ⟨hcd, hp⟩ := hall c' hmem
          rw [hdcols] at hcd
          refine ⟨hcd, ?_⟩
          intro r hr
          have hpr := hp r hr
          have hidx : colIdx d c' = colIdx df c' := by
            unfold colIdx
            rw [hdcols]
          rwa [hidx] at hpr

theorem drop_na_line_self : ∀ (columns : List String) (e : DataFrame),
    (∀ c ∈ columns, c ∈ e.cols) →
    (∀ c ∈ columns, ∀ r ∈ e.rows, (!isNaCell (rowGet r (colIdx e c))) = true) →
    drop_na_line e columns = some e := by
  intro columns
  induction columns with
  | nil =>
    intro e _ _
    rfl
  | cons c cs ih =>
    intro e hmem hclean
    unfold drop_na_line
    have h1 : dropna1 e c = some e := by
      unfold dropna1
      rw [if_pos (hmem c (List.mem_cons_self c cs))]
      have hfe : e.rows.filter (fun r => !isNaCell (rowGet r (colIdx e c))) = e.rows :=
        List.filter_eq_self.mpr (fun r hr => hclean c (List.mem_cons_self c cs) r hr)
      cases e with
    | mk ecols erows =>
      simp only at hfe
      rw [hfe]
    rw [h1]
    exact ih e (fun c' h => hmem c' (List.mem_cons_of_mem _ h))
      (fun c' h => hclean c' (List.mem_cons_of_mem _ h))

/-- Claim C8: the row filter `drop_na_line` is idempotent — running it a
second time with the same required columns returns the identical frame
(and when a required column is absent, both the first and the composite
run raise). -/
theorem claim_C8 (df : DataFrame) (columns : List String) :
    (drop_na_line df columns).bind (fun d => drop_na_line d columns) =
      drop_na_line df columns := by
  cases h : drop_na_line df columns with
  | none => rfl
  | some e =>
    obtain ⟨hcols, _, hall⟩ := drop_na_line_spec columns df e h
    have h2 : drop_na_line e columns = some e := by
      apply drop_na_line_self
      · intro c hc
        rw [hcols]
        exact (hall c hc).1
      · intro c hc r hr
        have hpr := (hall c hc).2 r hr
        have hidx : colIdx e c = colIdx df c := by
          unfold colIdx
          rw [hcols]
        rw [hidx]
        exact hpr
    simp [h2]

theorem cellLe_total (a b : Cell) : cellLe a b = true ∨ cellLe b a = true := by
  cases a <;> cases b <;> simp [cellLe, cellRank] <;> exact le_total _ _

theorem cellLe_trans (a b c : Cell) (hab : cellLe a b = true) (hbc : cellLe b c = true) :
    cellLe a c = true := by
  cases a <;> cases b <;> cases c <;> simp_all [cellLe, cellRank] <;> exact le_trans hab hbc

theorem mem_insertRowDesc (i : Nat) (x z : List Cell) (l : List (List Cell))
    (h : z ∈ insertRowDesc i x l) : z = x ∨ z ∈ l := by
  induction l with
  | nil => simpa [insertRowDesc] using h
  | cons y ys ih =>
    unfold insertRowDesc at h
    by_cases hc : cellLe (rowGet x i) (rowGet y i) = true
    · rw [if_pos hc] at h
      rcases List.mem_cons.mp h with rfl | h2
      · exact Or.inr (List.mem_cons_self _ _)
      · rcases ih h2 with rfl | h3
        · exact Or.inl rfl
        · exact Or.inr (List.mem_cons_of_mem _ h3)
    · rw [if_neg hc] at h
      rcases List.mem_cons.mp h with rfl | h2
      · exact Or.inl rfl
      · exact Or.inr h2

theorem pairwise_insertRowDesc (i : Nat) (x : List Cell) (l : List (List Cell))
    (h : l.Pairwise (fun a b => cellLe (rowGet b i) (rowGet a i) = true)) :
    (insertRowDesc i x l).Pairwise (fun a b => cellLe (rowGet b i) (rowGet a i) = true) := by
  induction l with
  | nil => simp [insertRowDesc]
  | cons y ys ih =>
    rw [List.pairwise_cons] at h
    obtain ⟨hy, hys⟩ := h
    unfold insertRowDesc
    by_cases hc : cellLe (rowGet x i) (rowGet y i) = true
    · rw [if_pos hc]
      rw [List.pairwise_cons]
      constructor
      · intro z hz
        rcases mem_insertRowDesc i x z ys hz with rfl | h3
        · exact hc
        · exact hy z h3
      · exact ih hys
    · rw [if_neg hc]
      have hyx : cellLe (rowGet y i) (rowGet x i) = true := by
        rcases cellLe_total (rowGet x i) (rowGet y i) with h1 | h1
        · exact absurd h1 hc
        · exact h1
      rw [List.pairwise_cons]
      constructor
      · intro z hz
        rcases List.mem_cons.mp hz with rfl | h3
        · exact hyx
        · exact cellLe_trans _ _ _ (hy z h3) hyx
      · rw [List.pairwise_cons]
        exact ⟨hy, hys⟩

theorem pairwise_sortRowsDesc_aux (i : Nat) : ∀ (l acc : List (List Cell)),
    acc.Pairwise (fun a b => cellLe (rowGet b i) (rowGet a i) = true) →
    (l.foldl (fun acc x => insertRowDesc i x acc) acc).Pairwise
      (fun a b => cellLe (rowGet b i) (rowGet a i) = true) := by
  intro l
  induction l with
  | nil =>
    intro acc h
    simpa using h
  | cons x xs ih =>
    intro acc h
    rw [List.foldl_cons]
    exact ih _ (pairwise_insertRowDesc i x acc h)

theorem pairwise_sortRowsDesc (i : Nat) (l : List (List Cell)) :
    (sortRowsDesc i l).Pairwise (fun a b => cellLe (rowGet b i) (rowGet a i) = true) :=
  pairwise_sortRowsDesc_aux i l [] List.Pairwise.nil

theorem dedupByIdx_sublist (i : Nat) : ∀ (l : List (List Cell)) (seen : List Cell),
    List.Sublist (dedupByIdx i l seen) l := by
  intro l
  induction l with
  | nil =>
    intro seen
    simp [dedupByIdx]
  | cons r rs ih =>
    intro seen
    unfold dedupByIdx
    by_cases hc : rowGet r i ∈ seen
    · rw [if_pos hc]
      exact (ih seen).cons r
    · rw [if_neg hc]
      exact (ih _).cons₂ r

theorem dedupByIdx_key_nodup (i : Nat) : ∀ (l : List (List Cell)) (seen : List Cell),
    ((dedupByIdx i l seen).map (fun r => rowGet r i)).Nodup ∧
      ∀ c ∈ (dedupByIdx i l seen).map (fun r => rowGet r i), c ∉ seen := by
  intro l
  induction l with
  | nil =>
    intro seen
    simp [dedupByIdx]
  | cons r rs ih =>
    intro seen
    unfold dedupByIdx
    by_cases hc : rowGet r i ∈ seen
    · rw [if_pos hc]
      exact ih seen
    · rw [if_neg hc]
      obtain ⟨hnd, hnot⟩ := ih (rowGet r i :: seen)
      simp only [List.map_cons]
      constructor
      · rw [List.nodup_cons]
        refine ⟨?_, hnd⟩
        intro hmem
        exact (hnot _ hmem) (List.mem_cons_self _ _)
      · intro c hcmem
        rcases List.mem_cons.mp hcmem with rfl | h2
        · exact hc
        · intro hcs
          exact (hnot c h2) (List.mem_cons_of_mem _ hcs)

theorem insertRowDesc_perm (i : Nat) (x : List Cell) (l : List (List Cell)) :
    (insertRowDesc i x l).Perm (x :: l) := by
  induction l with
  | nil => exact List.Perm.refl _
  | cons y ys ih =>
    unfold insertRowDesc
    by_cases hc : cellLe (rowGet x i) (rowGet y i) = true
    · rw [if_pos hc]
      exact (ih.cons y).trans (List.Perm.swap x y ys)
    · rw [if_neg hc]

theorem sortRowsDesc_perm_aux (i : Nat) : ∀ (l acc : List (List Cell)),
    (l.foldl (fun acc x => insertRowDesc i x acc) acc).Perm (l ++ acc) := by
  intro l
  induction l with
  | nil =>
    intro acc
    exact List.Perm.refl _
  | cons x xs ih =>
    intro acc
    rw [List.foldl_cons]
    exact ((ih _).trans
      (List.Perm.append_left xs (insertRowDesc_perm i x acc))).trans List.perm_middle

theorem sortRowsDesc_perm (i : Nat) (l : List (List Cell)) :
    (sortRowsDesc i l).Perm l := by
  have h := sortRowsDesc_perm_aux i l []
  rwa [List.append_nil] at h

theorem sortRowsDesc_isDescSortOf (i : Nat) (l : List (List Cell)) :
    IsDescSortOf i l (sortRowsDesc i l) :=
  ⟨sortRowsDesc_perm i l, pairwise_sortRowsDesc i l⟩

theorem topNamesFromSorted_length (ni n : Nat) (top1 : Bool) (sorted : List (List Cell)) :
    (topNamesFromSorted ni n top1 sorted).length ≤ n := by
  unfold topNamesFromSorted
  cases top1
  · simp [List.length_take]
  · simp only [if_true, List.length_drop, List.length_map, List.length_take]
    omega

theorem topNamesFromSorted_nodup (ni n : Nat) (top1 : Bool) (sorted : List (List Cell)) :
    (topNamesFromSorted ni n top1 sorted).Nodup := by
  have hbase : ((List.take n (dedupByIdx ni sorted [])).map (fun r => rowGet r ni)).Nodup :=
    (dedupByIdx_key_nodup ni sorted []).1.sublist
      ((List.take_sublist n _).map (fun r => rowGet r ni))
  unfold topNamesFromSorted
  cases top1
  · simpa using hbase
  · simp only [if_true]
    exact hbase.sublist (List.drop_sublist 1 _)

/-- Counterexample for claim C3: on an input with two distinct entities
tied on the metric, both orders of the tied rows satisfy the guarantee
the program's sort actually gives (`IsDescSortOf`: some descending
reordering; the default sort kind is documented unstable), and the two
orders make the downstream top-1 name differ — so the claimed stable
tie-break on original row order is not a property the program
guarantees. -/
theorem claim_C3_counterexample :
    IsDescSortOf 1
      [[Cell.str "A", Cell.num 5], [Cell.str "B", Cell.num 5]]
      [[Cell.str "A", Cell.num 5], [Cell.str "B", Cell.num 5]] ∧
    IsDescSortOf 1
      [[Cell.str "A", Cell.num 5], [Cell.str "B", Cell.num 5]]
      [[Cell.str "B", Cell.num 5], [Cell.str "A", Cell.num 5]] ∧
    topNamesFromSorted 0 1 false
        [[Cell.str "B", Cell.num 5], [Cell.str "A", Cell.num 5]] ≠
      topNamesFromSorted 0 1 false
        [[Cell.str "A", Cell.num 5], [Cell.str "B", Cell.num 5]] := by
  refine ⟨⟨List.Perm.refl _, ?_⟩, ⟨List.Perm.swap _ _ _, ?_⟩, ?_⟩
  · simp [cellLe, rowGet]
  · simp [cellLe, rowGet]
  · decide

/-- Claim C3 as amended: the top-N query drops rows with a missing
metric, sorts descending by the metric with an unspecified tie order
(the library's default sort kind is not stable), deduplicates by entity
name keeping the first occurrence, takes the first `n` names, and drops
the first name when the exclude-top flag is set; consequently, for every
reordering the sort's actual guarantee admits, the result has at most
`n` names, no duplicate names, and selected rows in descending metric
order — and the executable model's sort is one such reordering, whose
pipeline result is exactly what `get_top_crypto_list` returns. -/
theorem claim_C3_amended (df : DataFrame) (n : Nat) (bycol : String) (top1 : Bool)
    (sorted : List (List Cell))
    (hsort : IsDescSortOf (colIdx df bycol)
      (df.rows.filter (fun r => !isNaCell (rowGet r (colIdx df bycol)))) sorted) :
    (topNamesFromSorted (colIdx df "name") n top1 sorted).length ≤ n ∧
    (topNamesFromSorted (colIdx df "name") n top1 sorted).Nodup ∧
    (List.take n (dedupByIdx (colIdx df "name") sorted [])).Pairwise
      (fun a b => cellLe (rowGet b (colIdx df bycol)) (rowGet a (colIdx df bycol)) = true) ∧
    IsDescSortOf (colIdx df bycol)
      (df.rows.filter (fun r => !isNaCell (rowGet r (colIdx df bycol))))
      (sortRowsDesc (colIdx df bycol)
        (df.rows.filter (fun r => !isNaCell (rowGet r (colIdx df bycol))))) ∧
    ∀ names, get_top_crypto_list df n bycol top1 = Except.ok names →
      names = topNamesFromSorted (colIdx df "name") n top1
        (sortRowsDesc (colIdx df bycol)
          (df.rows.filter (fun r => !isNaCell (rowGet r (colIdx df bycol))))) := by
  refine ⟨topNamesFromSorted_length _ n top1 sorted,
    topNamesFromSorted_nodup _ n top1 sorted,
    hsort.2.sublist ((List.take_sublist n _).trans (dedupByIdx_sublist (colIdx df "name") _ [])),
    sortRowsDesc_isDescSortOf _ _, ?_⟩
  intro names h
  unfold get_top_crypto_list at h
  by_cases h1 : bycol ∈ df.cols
  case neg =>
    rw [if_neg h1] at h
    cases h
  rw [if_pos h1] at h
  by_cases h2 : "name" ∈ df.cols
  case neg =>
    rw [if_neg h2] at h
    cases h
  rw [if_pos h2] at h
  injection h with h'
  subst h'
  cases top1 <;> rfl

/-- Witness for claim C3 as amended: on the example frame with metric
`"m"` and `n = 2`, the rows with a present metric are already in
descending order, so they themselves satisfy the sort's guarantee. -/
theorem claim_C3_witness :
    (topNamesFromSorted (colIdx dfTop "name") 2 false
        (dfTop.rows.filter (fun r => !isNaCell (rowGet r (colIdx dfTop "m"))))).length ≤ 2 ∧
    (topNamesFromSorted (colIdx dfTop "name") 2 false
        (dfTop.rows.filter (fun r => !isNaCell (rowGet r (colIdx dfTop "m"))))).Nodup ∧
    (List.take 2 (dedupByIdx (colIdx dfTop "name")
        (dfTop.rows.filter (fun r => !isNaCell (rowGet r (colIdx dfTop "m")))) [])).Pairwise
      (fun a b => cellLe (rowGet b (colIdx dfTop "m")) (rowGet a (colIdx dfTop "m")) = true) ∧
    IsDescSortOf (colIdx dfTop "m")
      (dfTop.rows.filter (fun r => !isNaCell (rowGet r (colIdx dfTop "m"))))
      (sortRowsDesc (colIdx dfTop "m")
        (dfTop.rows.filter (fun r => !isNaCell (rowGet r (colIdx dfTop "m"))))) ∧
    ∀ names, get_top_crypto_list dfTop 2 "m" false = Except.ok names →
      names = topNamesFromSorted (colIdx dfTop "name") 2 false
        (sortRowsDesc (colIdx dfTop "m")
          (dfTop.rows.filter (fun r => !isNaCell (rowGet r (colIdx dfTop "m"))))) :=
  claim_C3_amended dfTop 2 "m" false
    (dfTop.rows.filter (fun r => !isNaCell (rowGet r (colIdx dfTop "m"))))
    ⟨List.Perm.refl _, by
      simp [dfTop, colIdx, rowGet, isNaCell, cellLe]
      decide⟩
